/-
Verification of the Market-Atlas WebSocket notification fan-out layer
(backend/app/api/v1/websocket.py) against its natural-language specification.

The Python module is embedded shallowly:
  * Python dicts become association lists `List (key × value)` (Python dicts
    preserve insertion order; updating an existing key keeps its position,
    inserting a fresh key appends at the end, deleting removes the entry);
  * Python sets become `Finset`;
  * websockets and user ids are opaque handles, modelled as `Nat`;
  * `await websocket.send_json(...)` may fail; which sends fail is modelled
    by an oracle `fails : WS → Bool`.  `send_personal_message` catches every
    exception (`except Exception: pass`), so in the embedding it is total;
  * the inbound side of the session loop (`receive_json` plus the
    action dispatch) becomes a step function on the manager state.
-/
import Mathlib

set_option autoImplicit false

namespace MarketAtlas

/-- Opaque handle of one live websocket connection. -/
abbrev WS := Nat

/-- Stable identity of an authenticated user. -/
abbrev UserId := Nat

/-- Ticker symbol strings; the wildcard marker is the string "*". -/
abbrev Ticker := String

section AssocListOps

variable {α : Type} {β : Type} [DecidableEq α]

/-- Dict lookup: value of the first entry with the given key (`d.get(k)` /
`d[k]` on a Python dict, where keys are unique). -/
def getVal : List (α × β) → α → Option β
  | [], _ => none
  | p :: ps, k => if p.1 = k then some p.2 else getVal ps k

/-- Dict membership test (`k in d`). -/
def hasKey (l : List (α × β)) (k : α) : Bool :=
  (getVal l k).isSome

/-- Dict assignment `d[k] = v`: replaces the value in place when the key is
present, otherwise appends a new entry at the end (Python insertion order). -/
def setVal (l : List (α × β)) (k : α) (v : β) : List (α × β) :=
  if hasKey l k then l.map (fun p => if p.1 = k then (p.1, v) else p)
  else l ++ [(k, v)]

/-- In-place mutation of the value stored under a key (`d[k].add(x)` and
similar); entries with other keys are untouched, a missing key is a no-op. -/
def mapVal (l : List (α × β)) (k : α) (f : β → β) : List (α × β) :=
  l.map (fun p => if p.1 = k then (p.1, f p.2) else p)

/-- Dict deletion `del d[k]`. -/
def delKey (l : List (α × β)) (k : α) : List (α × β) :=
  l.filter (fun p => decide (p.1 ≠ k))

/-- Keys of the dict, in insertion order. -/
def keys (l : List (α × β)) : List α :=
  l.map Prod.fst

end AssocListOps

/-- State of `ConnectionManager`: `active_connections` maps each user id to
the set of that user's live websockets, `subscriptions` maps each websocket
to the set of tickers it subscribed to. -/
structure ConnectionManager where
  active_connections : List (UserId × Finset WS)
  subscriptions : List (WS × Finset Ticker)
  deriving DecidableEq

namespace ConnectionManager

/-- The manager a fresh process starts with (`manager = ConnectionManager()`). -/
def init : ConnectionManager := ⟨[], []⟩

/-- `ConnectionManager.connect` (after the transport `accept`): ensure the
user has an entry, add the websocket to the user's set, and assign the
websocket an empty subscription set. -/
def connect (m : ConnectionManager) (ws : WS) (u : UserId) : ConnectionManager :=
  let ac0 := if hasKey m.active_connections u then m.active_connections
             else m.active_connections ++ [(u, (∅ : Finset WS))]
  { active_connections := mapVal ac0 u (fun s => insert ws s),
    subscriptions := setVal m.subscriptions ws (∅ : Finset Ticker) }

/-- `ConnectionManager.disconnect`: discard the websocket from the user's
set, drop the user entry if it became empty, and delete the websocket's
subscription entry. -/
def disconnect (m : ConnectionManager) (ws : WS) (u : UserId) : ConnectionManager :=
  let ac :=
    match getVal m.active_connections u with
    | none => m.active_connections
    | some s =>
        let s' := s.erase ws
        if s' = ∅ then delKey m.active_connections u
        else mapVal m.active_connections u (fun _ => s')
  let subs := if hasKey m.subscriptions ws then delKey m.subscriptions ws
              else m.subscriptions
  { active_connections := ac, subscriptions := subs }

/-- `ConnectionManager.subscribe`: union the tickers into the websocket's
subscription set; no-op when the websocket is not registered. -/
def subscribe (m : ConnectionManager) (ws : WS) (tickers : Finset Ticker) :
    ConnectionManager :=
  if hasKey m.subscriptions ws then
    { m with subscriptions := mapVal m.subscriptions ws (fun s => s ∪ tickers) }
  else m

/-- `ConnectionManager.unsubscribe`: remove the tickers from the websocket's
subscription set; no-op when the websocket is not registered. -/
def unsubscribe (m : ConnectionManager) (ws : WS) (tickers : Finset Ticker) :
    ConnectionManager :=
  if hasKey m.subscriptions ws then
    { m with subscriptions := mapVal m.subscriptions ws (fun s => s \ tickers) }
  else m

/-- Fan-out target list of `ConnectionManager.broadcast_news`: the websockets
whose subscription set contains the ticker or the wildcard "*", in
registration order (the iteration order of `self.subscriptions.items()`). -/
def broadcast_news (m : ConnectionManager) (ticker : Ticker) : List WS :=
  (m.subscriptions.filter (fun p => decide (ticker ∈ p.2 ∨ "*" ∈ p.2))).map Prod.fst

end ConnectionManager

/-- Outcome of one send attempt as observed by the caller of
`send_personal_message`. -/
inductive SendResult where
  | ok : SendResult
  | failed : SendResult
  deriving DecidableEq

/-- Model of `await websocket.send_json(message)`: the oracle `fails` says
which websockets' transports raise on send. -/
def send_json (fails : WS → Bool) (ws : WS) : Except Unit Unit :=
  if fails ws then Except.error () else Except.ok ()

/-- `ConnectionManager.send_personal_message`: attempts the send once and
swallows any exception (`except Exception: pass`).  It performs no registry
mutation, so the manager state passes through unchanged. -/
def send_personal_message (fails : WS → Bool) (m : ConnectionManager) (ws : WS) :
    ConnectionManager × SendResult :=
  match send_json fails ws with
  | Except.ok _ => (m, SendResult.ok)
  | Except.error _ => (m, SendResult.failed)

/-- One dispatch pass of `ConnectionManager.broadcast_news` with the send
oracle threaded through: iterates the subscription entries in order and, for
each matching websocket, records the outcome of its send attempt. -/
def broadcast_news_st (fails : WS → Bool) (m : ConnectionManager) (ticker : Ticker) :
    ConnectionManager × List (WS × SendResult) :=
  m.subscriptions.foldl
    (fun acc p =>
      if ticker ∈ p.2 ∨ "*" ∈ p.2 then
        let r := send_personal_message fails acc.1 p.1
        (r.1, acc.2 ++ [(p.1, r.2)])
      else acc)
    (m, [])

/-- One inbound event of the session loop, as produced by
`await websocket.receive_json()`:
  * `msg action tickers` — the receive yielded a JSON object; `action` is
    `data.get("action")` and `tickers` is `data.get("tickers", [])`;
  * `malformed` — the receive raised an ordinary exception (invalid JSON, or
    a payload on which the subsequent field accesses raise);
  * `disconnected` — the receive raised `WebSocketDisconnect`. -/
inductive Inbound where
  | msg : Option String → List Ticker → Inbound
  | malformed : Inbound
  | disconnected : Inbound
  deriving DecidableEq

/-- Outbound acknowledgement messages of the session loop. -/
inductive Outbound where
  | subscribed : Finset Ticker → Outbound
  | unsubscribed : Finset Ticker → Outbound
  | pong : Outbound
  deriving DecidableEq

/-- Result of handling one inbound event: either the loop continues with the
new manager state (recording the acknowledgement send, if any), or the loop
has exited — `manager.disconnect` has run and the listener task is
cancelled. -/
inductive StepResult where
  | cont : ConnectionManager → Option (Outbound × SendResult) → StepResult
  | closed : ConnectionManager → StepResult
  deriving DecidableEq

/-- One iteration of the `while True` receive loop of `websocket_news` for
the session owning websocket `ws` of user `u`.  `WebSocketDisconnect` and
any other exception from the receive both land in an `except` clause that
calls `manager.disconnect` and cancels the listener task; a JSON object with
an unrecognized or missing action falls through every branch and is
dropped. -/
def session_step (fails : WS → Bool) (m : ConnectionManager) (ws : WS) (u : UserId) :
    Inbound → StepResult
  | Inbound.disconnected => StepResult.closed (m.disconnect ws u)
  | Inbound.malformed => StepResult.closed (m.disconnect ws u)
  | Inbound.msg action tickers =>
    if action = some "subscribe" then
      let ts := tickers.toFinset
      let m1 := m.subscribe ws ts
      let r := send_personal_message fails m1 ws
      StepResult.cont r.1 (some (Outbound.subscribed ts, r.2))
    else if action = some "unsubscribe" then
      let ts := tickers.toFinset
      let m1 := m.unsubscribe ws ts
      let r := send_personal_message fails m1 ws
      StepResult.cont r.1 (some (Outbound.unsubscribed ts, r.2))
    else if action = some "ping" then
      let r := send_personal_message fails m ws
      StepResult.cont r.1 (some (Outbound.pong, r.2))
    else
      StepResult.cont m none

/-- Decoded JWT payload as used by the handler: `typ` is
`payload.get("type")` and `sub` is the user id carried by the token (the
parsed `payload.get("sub")`). -/
structure TokenPayload where
  typ : Option String
  sub : UserId
  deriving DecidableEq

/-- Outcome of the connect-time guard of `websocket_news`. -/
inductive OpenOutcome where
  | rejected : Nat → String → ConnectionManager → OpenOutcome
  | opened : UserId → ConnectionManager → OpenOutcome
  deriving DecidableEq

/-- Connect-time behaviour of `websocket_news`: `decoded` is the result of
`decode_token(token)` (`none` when the credential is missing, invalid or
expired — the validator returns `None` then).  On failure, or when the
payload is not an access token, the transport is closed with code 4001 and
the handler returns without touching the manager; otherwise the session
reaches the Open state via `manager.connect`. -/
def websocket_news_auth (decoded : Option TokenPayload) (m : ConnectionManager)
    (ws : WS) : OpenOutcome :=
  match decoded with
  | none => OpenOutcome.rejected 4001 "Invalid token" m
  | some p =>
    if p.typ ≠ some "access" then OpenOutcome.rejected 4001 "Invalid token" m
    else OpenOutcome.opened p.sub (m.connect ws p.sub)

/-- Process-wide state relevant to dispatching: the shared manager and the
number of live `redis_listener` tasks.  `websocket_news` creates one
listener task (`asyncio.create_task(redis_listener())`) for every session it
opens, each subscribed to the same "news_updates" channel. -/
structure ProcessState where
  manager : ConnectionManager
  listener_count : Nat
  deriving DecidableEq

/-- Opening one session after successful authentication: registers the
websocket and starts that session's own Redis listener task. -/
def open_session (ps : ProcessState) (ws : WS) (u : UserId) : ProcessState :=
  { manager := ps.manager.connect ws u, listener_count := ps.listener_count + 1 }

/-- A subscribe action performed on an open session. -/
def process_subscribe (ps : ProcessState) (ws : WS) (tickers : Finset Ticker) :
    ProcessState :=
  { ps with manager := ps.manager.subscribe ws tickers }

/-- Delivery attempts caused by one external "news_updates" event for
`ticker`: every live listener task receives the published message and
independently runs `manager.broadcast_news`, so the fan-out target list is
emitted once per listener. -/
def event_deliveries (ps : ProcessState) (ticker : Ticker) : List WS :=
  (List.replicate ps.listener_count (ps.manager.broadcast_news ticker)).flatten

/-- Well-formedness of the dict representation: unique keys in both
mappings, and no user entry with an empty connection set (`disconnect`
deletes a user entry the moment its set empties, and `connect` only ever
creates a nonempty one). -/
def WFmgr (m : ConnectionManager) : Prop :=
  (keys m.active_connections).Nodup ∧ (keys m.subscriptions).Nodup ∧
  ∀ q ∈ m.active_connections, q.2 ≠ (∅ : Finset WS)

/-- Registry consistency: every websocket holding a subscription entry sits
in some user's connection set, and every websocket in some user's
connection set holds a subscription entry. -/
def consistentMgr (m : ConnectionManager) : Prop :=
  (∀ p ∈ m.subscriptions, ∃ q ∈ m.active_connections, p.1 ∈ q.2) ∧
  (∀ q ∈ m.active_connections, ∀ w ∈ q.2, hasKey m.subscriptions w = true)

/-- The registry invariant: representation well-formedness together with
consistency of the two mappings. -/
def registryInv (m : ConnectionManager) : Prop :=
  WFmgr m ∧ consistentMgr m

/-- All user entries containing `ws` belong to `u` — the calling session's
user really is the owner of the websocket it cleans up.  `websocket_news`
guarantees this: it always calls `manager.disconnect(websocket, user_id)`
with the same pair it called `manager.connect` with. -/
def ownedBy (m : ConnectionManager) (ws : WS) (u : UserId) : Prop :=
  ∀ q ∈ m.active_connections, ws ∈ q.2 → q.1 = u

instance (m : ConnectionManager) : Decidable (WFmgr m) := by
  unfold WFmgr; infer_instance

instance (m : ConnectionManager) : Decidable (consistentMgr m) := by
  unfold consistentMgr; infer_instance

instance (m : ConnectionManager) : Decidable (registryInv m) := by
  unfold registryInv; infer_instance

instance (m : ConnectionManager) (ws : WS) (u : UserId) :
    Decidable (ownedBy m ws u) := by
  unfold ownedBy; infer_instance

/-- The step of the `broadcast_news` dispatch loop, named so that the fold
can be reasoned about one iteration at a time. -/
def bstStep (fails : WS → Bool) (t : Ticker)
    (acc : ConnectionManager × List (WS × SendResult)) (p : WS × Finset Ticker) :
    ConnectionManager × List (WS × SendResult) :=
  if t ∈ p.2 ∨ "*" ∈ p.2 then
    let r := send_personal_message fails acc.1 p.1
    (r.1, acc.2 ++ [(p.1, r.2)])
  else acc

/-- Concrete three-connection registry of the fan-out example in the
specification: websocket 101 of user 1 subscribed to `{AAPL}`, websocket 102
of user 2 to `{MSFT}`, websocket 103 of user 3 to the wildcard. -/
def exampleManager : ConnectionManager :=
  ⟨[(1, {101}), (2, {102}), (3, {103})],
   [(101, {"AAPL"}), (102, {"MSFT"}), (103, {"*"})]⟩

/-- Process state after the handler has opened two sessions: user 1's
websocket 10 (which then subscribed to AAPL) and user 2's websocket 20.
Each `websocket_news` invocation spawned its own `redis_listener` task. -/
def twoSessionProcess : ProcessState :=
  open_session (process_subscribe (open_session ⟨ConnectionManager.init, 0⟩ 10 1)
    10 {"AAPL"}) 20 2

section AssocListLemmas

variable {α : Type} {β : Type} [DecidableEq α]

theorem getVal_append (l l₂ : List (α × β)) (k : α) :
    getVal (l ++ l₂) k =
      (match getVal l k with
       | some v => some v
       | none => getVal l₂ k) := by
  induction l with
  | nil => simp [getVal]
  | cons p ps ih =>
    by_cases h : p.1 = k <;> simp [getVal, h, ih]

theorem getVal_mapVal (l : List (α × β)) (k k₁ : α) (f : β → β) :
    getVal (mapVal l k f) k₁ =
      if k₁ = k then (getVal l k).map f else getVal l k₁ := by
  induction l with
  | nil => simp [getVal, mapVal]
  | cons p ps ih =>
    simp only [mapVal] at ih ⊢
    by_cases h : p.1 = k
    · subst h
      by_cases h₁ : k₁ = p.1
      · subst h₁
        simp [getVal]
      · have h₂ : ¬ p.1 = k₁ := fun hc => h₁ hc.symm
        simp [getVal, h₁, h₂, ih]
    · by_cases h₁ : p.1 = k₁
      · subst h₁
        have h₂ : ¬ p.1 = k := h
        simp [getVal, h₂, fun hc : p.1 = k => h hc]
      · simp [getVal, h, h₁, ih]

theorem hasKey_iff_mem_keys (l : List (α × β)) (k : α) :
    hasKey l k = true ↔ k ∈ keys l := by
  induction l with
  | nil => simp [hasKey, getVal, keys]
  | cons p ps ih =>
    simp only [hasKey, getVal, keys, List.map_cons, List.mem_cons] at ih ⊢
    by_cases h : p.1 = k
    · subst h
      simp
    · have h' : ¬ k = p.1 := fun hc => h hc.symm
      simp [h, h', ih]

theorem getVal_mem {l : List (α × β)} {k : α} {v : β}
    (h : getVal l k = some v) : (k, v) ∈ l := by
  induction l with
  | nil => simp [getVal] at h
  | cons p ps ih =>
    by_cases hp : p.1 = k
    · simp [getVal, hp] at h
      have hv : (k, v) = p := by
        rw [← hp, ← h]
      exact List.mem_cons.mpr (Or.inl hv)
    · simp [getVal, hp] at h
      exact List.mem_cons_of_mem _ (ih h)

theorem mem_getVal {l : List (α × β)} {k : α} {v : β}
    (hnd : (keys l).Nodup) (h : (k, v) ∈ l) : getVal l k = some v := by
  induction l with
  | nil => simp at h
  | cons p ps ih =>
    simp only [keys, List.map_cons, List.nodup_cons] at hnd
    rcases List.mem_cons.mp h with h₁ | h₁
    · rw [← h₁]
      simp [getVal]
    · have hk : k ∈ keys ps := by
        unfold keys
        exact List.mem_map.mpr ⟨(k, v), h₁, rfl⟩
      have hp : p.1 ≠ k := fun hc => hnd.1 (by rw [hc]; exact hk)
      simp [getVal, hp]
      exact ih hnd.2 h₁

theorem keys_mapVal (l : List (α × β)) (k : α) (f : β → β) :
    keys (mapVal l k f) = keys l := by
  induction l with
  | nil => rfl
  | cons p ps ih =>
    by_cases h : p.1 = k <;> simp [mapVal, keys, h] <;>
      simpa [mapVal, keys] using ih

theorem keys_setVal (l : List (α × β)) (k : α) (v : β) :
    keys (setVal l k v) = if hasKey l k then keys l else keys l ++ [k] := by
  by_cases h : hasKey l k
  · have : setVal l k v = mapVal l k (fun _ => v) := by
      simp [setVal, mapVal, h]
    rw [this, keys_mapVal]
    simp [h]
  · simp [setVal, h, keys]

theorem keys_delKey (l : List (α × β)) (k : α) :
    keys (delKey l k) = (keys l).filter (fun a => decide (a ≠ k)) := by
  induction l with
  | nil => rfl
  | cons p ps ih =>
    by_cases h : p.1 = k <;> simp [delKey, keys, h] <;>
      simpa [delKey, keys] using ih

theorem mem_delKey (l : List (α × β)) (k : α) (p : α × β) :
    p ∈ delKey l k ↔ p ∈ l ∧ p.1 ≠ k := by
  simp [delKey]

theorem mapVal_eq_self {l : List (α × β)} {k : α} {f : β → β}
    (h : ∀ p ∈ l, p.1 = k → f p.2 = p.2) : mapVal l k f = l := by
  induction l with
  | nil => rfl
  | cons p ps ih =>
    have hps : mapVal ps k f = ps :=
      ih (fun q hq => h q (List.mem_cons_of_mem _ hq))
    have hhead : (if p.1 = k then (p.1, f p.2) else p) = p := by
      by_cases hp : p.1 = k
      · rw [if_pos hp, h p (List.mem_cons_self _ _) hp]
      · rw [if_neg hp]
    show (if p.1 = k then (p.1, f p.2) else p) :: mapVal ps k f = p :: ps
    rw [hhead, hps]

theorem mapVal_of_not_hasKey {l : List (α × β)} {k : α} (f : β → β)
    (h : hasKey l k = false) : mapVal l k f = l := by
  apply mapVal_eq_self
  intro p hp hpk
  exfalso
  have hmem : hasKey l k = true := (hasKey_iff_mem_keys l k).mpr (by
    unfold keys
    exact List.mem_map.mpr ⟨p, hp, hpk⟩)
  rw [h] at hmem
  simp at hmem

theorem delKey_of_not_hasKey {l : List (α × β)} {k : α}
    (h : hasKey l k = false) : delKey l k = l := by
  unfold delKey
  refine List.filter_eq_self.mpr (fun p hp => ?_)
  by_cases hpk : p.1 = k
  · exfalso
    have hmem : hasKey l k = true := (hasKey_iff_mem_keys l k).mpr (by
      unfold keys
      exact List.mem_map.mpr ⟨p, hp, hpk⟩)
    rw [h] at hmem
    simp at hmem
  · simpa using hpk

theorem mapVal_mapVal (l : List (α × β)) (k : α) (f g : β → β) :
    mapVal (mapVal l k f) k g = mapVal l k (fun b => g (f b)) := by
  induction l with
  | nil => rfl
  | cons p ps ih =>
    by_cases h : p.1 = k <;> simp [mapVal, h] <;>
      simpa [mapVal] using ih

theorem mapVal_append (l l₂ : List (α × β)) (k : α) (f : β → β) :
    mapVal (l ++ l₂) k f = mapVal l k f ++ mapVal l₂ k f := by
  simp [mapVal]

theorem delKey_append (l l₂ : List (α × β)) (k : α) :
    delKey (l ++ l₂) k = delKey l k ++ delKey l₂ k := by
  simp [delKey]

theorem getVal_delKey (l : List (α × β)) (k k₁ : α) :
    getVal (delKey l k) k₁ = if k₁ = k then none else getVal l k₁ := by
  induction l with
  | nil => simp [getVal, delKey]
  | cons p ps ih =>
    by_cases h : p.1 = k
    · have hcons : delKey (p :: ps) k = delKey ps k := by
        simp [delKey, h]
      rw [hcons, ih]
      by_cases h₁ : k₁ = k
      · simp [h₁]
      · have h₂ : ¬ p.1 = k₁ := by
          rw [h]; exact fun hc => h₁ hc.symm
        simp [getVal, h₁, h₂]
    · have hcons : delKey (p :: ps) k = p :: delKey ps k := by
        simp [delKey, h]
      rw [hcons]
      by_cases h₂ : p.1 = k₁
      · have h₁ : ¬ k₁ = k := by
          rw [← h₂]; exact fun hc => h hc
        simp [getVal, h₂, h₁]
      · simp [getVal, h₂, ih]

theorem mem_mapVal_of_mem {l : List (α × β)} {k : α} {f : β → β} {p : α × β}
    (hp : p ∈ l) : (if p.1 = k then (p.1, f p.2) else p) ∈ mapVal l k f := by
  unfold mapVal
  exact List.mem_map.mpr ⟨p, hp, rfl⟩

theorem mem_mapVal {l : List (α × β)} {k : α} {f : β → β} {q : α × β}
    (hq : q ∈ mapVal l k f) :
    ∃ p ∈ l, q = (if p.1 = k then (p.1, f p.2) else p) := by
  unfold mapVal at hq
  obtain ⟨p, hp, hpe⟩ := List.mem_map.mp hq
  exact ⟨p, hp, hpe.symm⟩

theorem getVal_setVal (l : List (α × β)) (k : α) (v : β) (k₁ : α) :
    getVal (setVal l k v) k₁ = if k₁ = k then some v else getVal l k₁ := by
  by_cases h : hasKey l k
  · have hmv : setVal l k v = mapVal l k (fun _ => v) := by
      simp [setVal, mapVal, h]
    rw [hmv, getVal_mapVal]
    by_cases h₁ : k₁ = k
    · obtain ⟨s, hs⟩ := Option.isSome_iff_exists.mp h
      simp [h₁, hs]
    · simp [h₁]
  · have hn : getVal l k = none := by
      cases hg : getVal l k with
      | none => rfl
      | some s => rw [hasKey, hg] at h; simp at h
    simp only [setVal, h, if_neg, Bool.false_eq_true, if_false]
    rw [getVal_append]
    by_cases h₁ : k₁ = k
    · subst h₁
      simp [hn, getVal]
    · have h₂ : ¬ k = k₁ := fun hc => h₁ hc.symm
      cases hg : getVal l k₁ <;> simp [getVal, hg, h₁, h₂]

theorem mem_setVal {l : List (α × β)} {k : α} {v : β} {q : α × β}
    (h : q ∈ setVal l k v) : (q ∈ l ∧ q.1 ≠ k) ∨ q = (k, v) := by
  by_cases hk : hasKey l k
  · simp only [setVal, hk, if_true] at h
    obtain ⟨p, hp, hpe⟩ := List.mem_map.mp h
    by_cases hpk : p.1 = k
    · right
      rw [← hpe, if_pos hpk, hpk]
    · left
      rw [← hpe, if_neg hpk]
      exact ⟨hp, hpk⟩
  · simp only [setVal, hk, Bool.false_eq_true, if_false] at h
    rcases List.mem_append.mp h with h₁ | h₁
    · left
      refine ⟨h₁, fun hc => ?_⟩
      have : hasKey l k = true := (hasKey_iff_mem_keys l k).mpr (by
        unfold keys
        exact List.mem_map.mpr ⟨q, h₁, hc⟩)
      rw [this] at hk
      exact hk rfl
    · right
      simpa using h₁

end AssocListLemmas

/-- Membership in the user map after `connect`: each entry is either the
image of an old entry (with `ws` inserted when it is `u`'s entry), or the
freshly created entry `(u, {ws})` when `u` had no connections yet. -/
theorem mem_connect_active {m : ConnectionManager} {ws : WS} {u : UserId}
    {q : UserId × Finset WS} :
    q ∈ (m.connect ws u).active_connections ↔
      (∃ p ∈ m.active_connections,
        q = (if p.1 = u then (p.1, insert ws p.2) else p)) ∨
      (hasKey m.active_connections u = false ∧ q = (u, ({ws} : Finset WS))) := by
  by_cases hk : hasKey m.active_connections u
  · simp only [ConnectionManager.connect, hk, if_true, mapVal, List.mem_map, hk,
      Bool.true_eq_false, false_and, or_false]
    constructor
    · rintro ⟨p, hp, rfl⟩
      exact ⟨p, hp, rfl⟩
    · rintro ⟨p, hp, rfl⟩
      exact ⟨p, hp, rfl⟩
  · simp only [ConnectionManager.connect, hk, Bool.false_eq_true, if_false, mapVal,
      List.map_append, List.mem_append, List.mem_map, List.map_cons, List.map_nil,
      List.mem_singleton]
    constructor
    · rintro (⟨p, hp, rfl⟩ | hq)
      · exact Or.inl ⟨p, hp, rfl⟩
      · refine Or.inr ⟨trivial, ?_⟩
        simpa using hq
    · rintro (⟨p, hp, rfl⟩ | ⟨-, rfl⟩)
      · exact Or.inl ⟨p, hp, rfl⟩
      · refine Or.inr ?_
        simp

theorem connect_subscriptions (m : ConnectionManager) (ws : WS) (u : UserId) :
    (m.connect ws u).subscriptions = setVal m.subscriptions ws (∅ : Finset Ticker) :=
  rfl

theorem connect_preserves_registryInv (m : ConnectionManager) (ws : WS) (u : UserId)
    (h : registryInv m) : registryInv (m.connect ws u) := by
  obtain ⟨⟨hndAc, hndSub, hne⟩, hfwd, hbwd⟩ := h
  have hacKeys : keys (m.connect ws u).active_connections =
      (if hasKey m.active_connections u then keys m.active_connections
       else keys m.active_connections ++ [u]) := by
    by_cases hk : hasKey m.active_connections u
    · simp [ConnectionManager.connect, hk, keys_mapVal]
    · simp only [ConnectionManager.connect, hk, Bool.false_eq_true, if_false,
        keys_mapVal]
      unfold keys
      simp
  refine ⟨⟨?_, ?_, ?_⟩, ?_, ?_⟩
  · -- keys of the user map stay duplicate-free
    rw [hacKeys]
    by_cases hk : hasKey m.active_connections u
    · simpa [hk] using hndAc
    · have hu : u ∉ keys m.active_connections := fun hm =>
        hk ((hasKey_iff_mem_keys _ u).mpr hm)
      simp only [hk, Bool.false_eq_true, if_false]
      refine List.Nodup.append hndAc (List.nodup_singleton u) (fun a ha hb => ?_)
      have hau : a = u := by simpa using hb
      exact hu (hau ▸ ha)
  · -- keys of the subscription map stay duplicate-free
    rw [connect_subscriptions, keys_setVal]
    by_cases hk : hasKey m.subscriptions ws
    · simpa [hk] using hndSub
    · have hw : ws ∉ keys m.subscriptions := fun hm =>
        hk ((hasKey_iff_mem_keys _ ws).mpr hm)
      simp only [hk, Bool.false_eq_true, if_false]
      refine List.Nodup.append hndSub (List.nodup_singleton ws) (fun a ha hb => ?_)
      have haw : a = ws := by simpa using hb
      exact hw (haw ▸ ha)
  · -- no user entry is empty
    intro q hq
    rcases mem_connect_active.mp hq with ⟨p, hp, rfl⟩ | ⟨-, rfl⟩
    · by_cases hpk : p.1 = u
      · rw [if_pos hpk]
        exact Finset.insert_ne_empty ws p.2
      · rw [if_neg hpk]
        exact hne p hp
    · exact Finset.singleton_ne_empty ws
  · -- every subscription entry is reachable from a user entry
    intro p hp
    rw [connect_subscriptions] at hp
    rcases mem_setVal hp with ⟨hpl, hpne⟩ | hpeq
    · obtain ⟨q, hq, hqm⟩ := hfwd p hpl
      refine ⟨(if q.1 = u then (q.1, insert ws q.2) else q),
        mem_connect_active.mpr (Or.inl ⟨q, hq, rfl⟩), ?_⟩
      by_cases hqu : q.1 = u
      · simp only [hqu, if_true]
        exact Finset.mem_insert_of_mem hqm
      · simpa [hqu] using hqm
    · subst hpeq
      by_cases hk : hasKey m.active_connections u
      · obtain ⟨s, hs⟩ := Option.isSome_iff_exists.mp hk
        have hmem : (u, s) ∈ m.active_connections := getVal_mem hs
        refine ⟨(u, insert ws s),
          mem_connect_active.mpr (Or.inl ⟨(u, s), hmem, by simp⟩), by simp⟩
      · exact ⟨(u, {ws}),
          mem_connect_active.mpr (Or.inr ⟨Bool.eq_false_iff.mpr hk, rfl⟩), by simp⟩
  · -- every websocket in a user entry has a subscription entry
    intro q hq w hw
    have hsub : getVal (m.connect ws u).subscriptions w =
        (if w = ws then some (∅ : Finset Ticker) else getVal m.subscriptions w) := by
      rw [connect_subscriptions]
      exact getVal_setVal _ _ _ _
    by_cases hwws : w = ws
    · unfold hasKey
      rw [hsub, if_pos hwws]
      rfl
    · have hold : hasKey m.subscriptions w = true := by
        rcases mem_connect_active.mp hq with ⟨p, hp, rfl⟩ | ⟨-, rfl⟩
        · by_cases hpk : p.1 = u
          · rw [if_pos hpk] at hw
            rcases Finset.mem_insert.mp hw with hww | hww
            · exact absurd hww hwws
            · exact hbwd p hp w hww
          · rw [if_neg hpk] at hw
            exact hbwd p hp w hw
        · exact absurd (by simpa using hw) hwws
      simpa [hasKey, hsub, hwws] using hold

theorem disconnect_subscriptions (m : ConnectionManager) (ws : WS) (u : UserId) :
    (m.disconnect ws u).subscriptions =
      (if hasKey m.subscriptions ws then delKey m.subscriptions ws
       else m.subscriptions) :=
  rfl

theorem mem_disconnect_subscriptions {m : ConnectionManager} {ws : WS} {u : UserId}
    {p : WS × Finset Ticker} (hp : p ∈ (m.disconnect ws u).subscriptions) :
    p ∈ m.subscriptions ∧ p.1 ≠ ws := by
  rw [disconnect_subscriptions] at hp
  by_cases hks : hasKey m.subscriptions ws
  · rw [if_pos hks] at hp
    exact (mem_delKey _ _ _).mp hp
  · rw [if_neg hks] at hp
    refine ⟨hp, fun hc => hks ?_⟩
    exact (hasKey_iff_mem_keys _ _).mpr (by
      unfold keys
      exact List.mem_map.mpr ⟨p, hp, hc⟩)

theorem hasKey_disconnect_subscriptions (m : ConnectionManager) (ws : WS)
    (u : UserId) (w : WS) (hw : w ≠ ws) :
    hasKey (m.disconnect ws u).subscriptions w = hasKey m.subscriptions w := by
  rw [disconnect_subscriptions]
  by_cases hks : hasKey m.subscriptions ws
  · rw [if_pos hks]
    unfold hasKey
    rw [getVal_delKey]
    simp [hw]
  · rw [if_neg hks]

theorem nodup_keys_disconnect_subscriptions (m : ConnectionManager) (ws : WS)
    (u : UserId) (hndSub : (keys m.subscriptions).Nodup) :
    (keys (m.disconnect ws u).subscriptions).Nodup := by
  rw [disconnect_subscriptions]
  by_cases hks : hasKey m.subscriptions ws
  · rw [if_pos hks, keys_delKey]
    exact hndSub.filter _
  · rw [if_neg hks]
    exact hndSub

theorem disconnect_preserves_registryInv (m : ConnectionManager) (ws : WS)
    (u : UserId) (h : registryInv m) (how : ownedBy m ws u) :
    registryInv (m.disconnect ws u) := by
  obtain ⟨⟨hndAc, hndSub, hne⟩, hfwd, hbwd⟩ := h
  have hnotin : ∀ q ∈ m.active_connections, q.1 ≠ u → ws ∉ q.2 :=
    fun q hq hqu hws => hqu (how q hq hws)
  cases hg : getVal m.active_connections u with
  | none =>
    -- the user has no entry, so by ownership the websocket is not registered
    -- and disconnect leaves the manager untouched
    have hks : hasKey m.subscriptions ws = false := by
      rcases Bool.eq_false_or_eq_true (hasKey m.subscriptions ws) with hb | hb
      swap
      · exact hb
      · exfalso
        obtain ⟨S, hS⟩ := Option.isSome_iff_exists.mp hb
        obtain ⟨q, hq, hqm⟩ := hfwd (ws, S) (getVal_mem hS)
        have hqu : q.1 = u := how q hq hqm
        have hgq : getVal m.active_connections q.1 = some q.2 :=
          mem_getVal hndAc hq
        rw [hqu, hg] at hgq
        exact Option.noConfusion hgq
    have hid : m.disconnect ws u = m := by
      simp [ConnectionManager.disconnect, hg, hks]
    rw [hid]
    exact ⟨⟨hndAc, hndSub, hne⟩, hfwd, hbwd⟩
  | some s =>
    by_cases hse : s.erase ws = ∅
    · -- the user entry empties out and is deleted
      have hac : (m.disconnect ws u).active_connections =
          delKey m.active_connections u := by
        simp [ConnectionManager.disconnect, hg, hse]
      refine ⟨⟨?_, nodup_keys_disconnect_subscriptions m ws u hndSub, ?_⟩, ?_, ?_⟩
      · rw [hac, keys_delKey]
        exact hndAc.filter _
      · intro q hq
        rw [hac] at hq
        exact hne q ((mem_delKey _ _ _).mp hq).1
      · intro p hp
        obtain ⟨hpl, hpw⟩ := mem_disconnect_subscriptions hp
        obtain ⟨q, hq, hqm⟩ := hfwd p hpl
        have hqu : q.1 ≠ u := by
          intro hc
          have hgq : getVal m.active_connections q.1 = some q.2 :=
            mem_getVal hndAc hq
          rw [hc, hg] at hgq
          have hqs : s = q.2 := Option.some.inj hgq
          have hmem : p.1 ∈ s.erase ws :=
            Finset.mem_erase.mpr ⟨hpw, by rw [hqs]; exact hqm⟩
          rw [hse] at hmem
          exact absurd hmem (Finset.not_mem_empty _)
        refine ⟨q, ?_, hqm⟩
        rw [hac]
        exact (mem_delKey _ _ _).mpr ⟨hq, hqu⟩
      · intro q hq w hw
        rw [hac] at hq
        obtain ⟨hql, hqu⟩ := (mem_delKey _ _ _).mp hq
        have hwws : w ≠ ws := fun hc => hnotin q hql hqu (hc ▸ hw)
        rw [hasKey_disconnect_subscriptions m ws u w hwws]
        exact hbwd q hql w hw
    · -- the user entry keeps other websockets and is updated in place
      have hac : (m.disconnect ws u).active_connections =
          mapVal m.active_connections u (fun _ => s.erase ws) := by
        simp [ConnectionManager.disconnect, hg, hse]
      refine ⟨⟨?_, nodup_keys_disconnect_subscriptions m ws u hndSub, ?_⟩, ?_, ?_⟩
      · rw [hac, keys_mapVal]
        exact hndAc
      · intro q hq
        rw [hac] at hq
        obtain ⟨p, hp, rfl⟩ := mem_mapVal hq
        by_cases hpk : p.1 = u
        · rw [if_pos hpk]
          exact hse
        · rw [if_neg hpk]
          exact hne p hp
      · intro p hp
        obtain ⟨hpl, hpw⟩ := mem_disconnect_subscriptions hp
        obtain ⟨q, hq, hqm⟩ := hfwd p hpl
        refine ⟨(if q.1 = u then (q.1, s.erase ws) else q), ?_, ?_⟩
        · rw [hac]
          exact mem_mapVal_of_mem hq
        · by_cases hqu : q.1 = u
          · rw [if_pos hqu]
            have hgq : getVal m.active_connections q.1 = some q.2 :=
              mem_getVal hndAc hq
            rw [hqu, hg] at hgq
            have hqs : s = q.2 := Option.some.inj hgq
            exact Finset.mem_erase.mpr ⟨hpw, by rw [hqs]; exact hqm⟩
          · rw [if_neg hqu]
            exact hqm
      · intro q hq w hw
        rw [hac] at hq
        obtain ⟨p, hp, rfl⟩ := mem_mapVal hq
        by_cases hpk : p.1 = u
        · rw [if_pos hpk] at hw
          have hwws : w ≠ ws := (Finset.mem_erase.mp hw).1
          have hws : w ∈ s := (Finset.mem_erase.mp hw).2
          have hgq : getVal m.active_connections p.1 = some p.2 :=
            mem_getVal hndAc hp
          rw [hpk, hg] at hgq
          have hqs : s = p.2 := Option.some.inj hgq
          rw [hasKey_disconnect_subscriptions m ws u w hwws]
          exact hbwd p hp w (by rw [← hqs]; exact hws)
        · rw [if_neg hpk] at hw
          have hwws : w ≠ ws := fun hc => hnotin p hp hpk (hc ▸ hw)
          rw [hasKey_disconnect_subscriptions m ws u w hwws]
          exact hbwd p hp w hw

theorem subsMapVal_preserves_registryInv (m : ConnectionManager) (ws : WS)
    (f : Finset Ticker → Finset Ticker) (h : registryInv m) :
    registryInv { m with subscriptions := mapVal m.subscriptions ws f } := by
  obtain ⟨⟨hndAc, hndSub, hne⟩, hfwd, hbwd⟩ := h
  refine ⟨⟨hndAc, ?_, hne⟩, ?_, ?_⟩
  · show (keys (mapVal m.subscriptions ws f)).Nodup
    rw [keys_mapVal]
    exact hndSub
  · intro p hp
    obtain ⟨p0, hp0, rfl⟩ := mem_mapVal hp
    have hfst : (if p0.1 = ws then (p0.1, f p0.2) else p0).1 = p0.1 := by
      by_cases hpk : p0.1 = ws <;> simp [hpk]
    rw [hfst]
    exact hfwd p0 hp0
  · intro q hq w hw
    have hold := hbwd q hq w hw
    show hasKey (mapVal m.subscriptions ws f) w = true
    unfold hasKey at hold ⊢
    rw [getVal_mapVal]
    by_cases hwk : w = ws
    · subst hwk
      rw [if_pos rfl]
      obtain ⟨S, hS⟩ := Option.isSome_iff_exists.mp hold
      rw [hS]
      rfl
    · rw [if_neg hwk]
      exact hold

theorem subscribe_preserves_registryInv (m : ConnectionManager) (ws : WS)
    (ts : Finset Ticker) (h : registryInv m) : registryInv (m.subscribe ws ts) := by
  unfold ConnectionManager.subscribe
  by_cases hks : hasKey m.subscriptions ws
  · rw [if_pos hks]
    exact subsMapVal_preserves_registryInv m ws _ h
  · rw [if_neg hks]
    exact h

theorem unsubscribe_preserves_registryInv (m : ConnectionManager) (ws : WS)
    (ts : Finset Ticker) (h : registryInv m) : registryInv (m.unsubscribe ws ts) := by
  unfold ConnectionManager.unsubscribe
  by_cases hks : hasKey m.subscriptions ws
  · rw [if_pos hks]
    exact subsMapVal_preserves_registryInv m ws _ h
  · rw [if_neg hks]
    exact h

theorem send_personal_message_fst (fails : WS → Bool) (m : ConnectionManager)
    (ws : WS) : (send_personal_message fails m ws).1 = m := by
  unfold send_personal_message send_json
  by_cases h : fails ws <;> simp [h]

theorem send_personal_message_snd (fails : WS → Bool) (m : ConnectionManager)
    (ws : WS) : (send_personal_message fails m ws).2 =
      (if fails ws then SendResult.failed else SendResult.ok) := by
  unfold send_personal_message send_json
  by_cases h : fails ws <;> simp [h]

theorem mem_broadcast_news (m : ConnectionManager) (t : Ticker) (ws : WS) :
    ws ∈ m.broadcast_news t ↔
      ∃ S, (ws, S) ∈ m.subscriptions ∧ (t ∈ S ∨ "*" ∈ S) := by
  unfold ConnectionManager.broadcast_news
  constructor
  · intro h
    obtain ⟨p, hp, rfl⟩ := List.mem_map.mp h
    have hf := List.mem_filter.mp hp
    exact ⟨p.2, hf.1, by simpa using hf.2⟩
  · rintro ⟨S, hS, hm⟩
    exact List.mem_map.mpr ⟨(ws, S), List.mem_filter.mpr ⟨hS, by simpa using hm⟩, rfl⟩

theorem broadcast_news_st_eq_foldl (fails : WS → Bool) (m : ConnectionManager)
    (t : Ticker) :
    broadcast_news_st fails m t = m.subscriptions.foldl (bstStep fails t) (m, []) :=
  rfl

theorem bstStep_pos {t : Ticker} {p : WS × Finset Ticker}
    (fails : WS → Bool) (m0 : ConnectionManager) (acc : List (WS × SendResult))
    (hp : t ∈ p.2 ∨ "*" ∈ p.2) :
    bstStep fails t (m0, acc) p =
      (m0, acc ++ [(p.1, if fails p.1 then SendResult.failed else SendResult.ok)]) := by
  unfold bstStep
  rw [if_pos hp]
  show ((send_personal_message fails m0 p.1).1,
    acc ++ [(p.1, (send_personal_message fails m0 p.1).2)]) = _
  rw [send_personal_message_fst, send_personal_message_snd]

theorem bstStep_neg {t : Ticker} {p : WS × Finset Ticker}
    (fails : WS → Bool) (m0 : ConnectionManager) (acc : List (WS × SendResult))
    (hp : ¬ (t ∈ p.2 ∨ "*" ∈ p.2)) :
    bstStep fails t (m0, acc) p = (m0, acc) := by
  unfold bstStep
  rw [if_neg hp]

theorem broadcast_foldl_aux (fails : WS → Bool) (t : Ticker) :
    ∀ (l : List (WS × Finset Ticker)) (m0 : ConnectionManager)
      (acc : List (WS × SendResult)),
    l.foldl (bstStep fails t) (m0, acc) =
    (m0, acc ++ ((l.filter (fun p => decide (t ∈ p.2 ∨ "*" ∈ p.2))).map
      (fun p => (p.1, if fails p.1 then SendResult.failed else SendResult.ok)))) := by
  intro l
  induction l with
  | nil =>
    intro m0 acc
    simp
  | cons p ps ih =>
    intro m0 acc
    by_cases hp : t ∈ p.2 ∨ "*" ∈ p.2
    · rw [List.foldl_cons, bstStep_pos fails m0 acc hp, ih,
        List.filter_cons_of_pos (by simpa using hp), List.map_cons]
      simp
    · rw [List.foldl_cons, bstStep_neg fails m0 acc hp, ih,
        List.filter_cons_of_neg (by simpa using hp)]

theorem broadcast_news_st_spec (fails : WS → Bool) (m : ConnectionManager)
    (t : Ticker) :
    broadcast_news_st fails m t =
      (m, (m.broadcast_news t).map
        (fun ws => (ws, if fails ws then SendResult.failed else SendResult.ok))) := by
  rw [broadcast_news_st_eq_foldl, broadcast_foldl_aux]
  unfold ConnectionManager.broadcast_news
  simp [List.map_map]

theorem roundtrip_nonregistered_not_in_sets (m : ConnectionManager) (ws : WS)
    (hbwd : ∀ q ∈ m.active_connections, ∀ w ∈ q.2, hasKey m.subscriptions w = true)
    (hfree : hasKey m.subscriptions ws = false) :
    ∀ q ∈ m.active_connections, ws ∉ q.2 := by
  intro q hq hmem
  have hc := hbwd q hq ws hmem
  rw [hfree] at hc
  exact Bool.noConfusion hc

/-- Registration/deregistration round trip helper: on a well-formed registry,
`connect` followed by `disconnect` of a websocket that was not registered
restores the exact manager state. -/
theorem connect_disconnect_eq (m : ConnectionManager) (ws : WS) (u : UserId)
    (hinv : registryInv m) (hfree : hasKey m.subscriptions ws = false) :
    (m.connect ws u).disconnect ws u = m := by
  obtain ⟨⟨hndAc, hndSub, hne⟩, hfwd, hbwd⟩ := hinv
  have hnotin : ∀ q ∈ m.active_connections, ws ∉ q.2 :=
    roundtrip_nonregistered_not_in_sets m ws hbwd hfree
  have hsubs1 : (m.connect ws u).subscriptions =
      m.subscriptions ++ [(ws, (∅ : Finset Ticker))] := by
    rw [connect_subscriptions]
    simp [setVal, hfree]
  have hks1 : hasKey (m.connect ws u).subscriptions ws = true := by
    unfold hasKey
    rw [connect_subscriptions, getVal_setVal]
    simp
  have hsubs2 : delKey (m.connect ws u).subscriptions ws = m.subscriptions := by
    rw [hsubs1, delKey_append, delKey_of_not_hasKey hfree]
    simp [delKey]
  by_cases hk : hasKey m.active_connections u
  · obtain ⟨s, hs⟩ := Option.isSome_iff_exists.mp hk
    have hmem : (u, s) ∈ m.active_connections := getVal_mem hs
    have hwss : ws ∉ s := hnotin (u, s) hmem
    have hsne : s ≠ ∅ := hne (u, s) hmem
    have hac1 : (m.connect ws u).active_connections =
        mapVal m.active_connections u (fun x => insert ws x) := by
      simp [ConnectionManager.connect, hk]
    have hg1 : getVal (m.connect ws u).active_connections u =
        some (insert ws s) := by
      rw [hac1, getVal_mapVal, if_pos rfl, hs]
      rfl
    have herase : (insert ws s).erase ws = s := Finset.erase_insert hwss
    have hd : (m.connect ws u).disconnect ws u =
        ⟨mapVal (m.connect ws u).active_connections u (fun _ => s),
         delKey (m.connect ws u).subscriptions ws⟩ := by
      simp [ConnectionManager.disconnect, hg1, herase, hsne, hks1]
    rw [hd, hsubs2, hac1, mapVal_mapVal]
    have hmv : mapVal m.active_connections u (fun _ => s) = m.active_connections := by
      refine mapVal_eq_self (fun p hp hpk => ?_)
      have hgp : getVal m.active_connections p.1 = some p.2 := mem_getVal hndAc hp
      rw [hpk, hs] at hgp
      exact Option.some.inj hgp
    rw [hmv]
  · have hkf : hasKey m.active_connections u = false := Bool.eq_false_iff.mpr hk
    have hgn : getVal m.active_connections u = none := by
      cases hgc : getVal m.active_connections u with
      | none => rfl
      | some s =>
        rw [hasKey, hgc] at hkf
        simp at hkf
    have hac1 : (m.connect ws u).active_connections =
        m.active_connections ++ [(u, ({ws} : Finset WS))] := by
      simp only [ConnectionManager.connect, hkf, Bool.false_eq_true, if_false]
      rw [mapVal_append, mapVal_of_not_hasKey _ hkf]
      simp [mapVal]
    have hg1 : getVal (m.connect ws u).active_connections u =
        some ({ws} : Finset WS) := by
      rw [hac1, getVal_append, hgn]
      simp [getVal]
    have herase : ({ws} : Finset WS).erase ws = ∅ := Finset.erase_singleton ws
    have hd : (m.connect ws u).disconnect ws u =
        ⟨delKey (m.connect ws u).active_connections u,
         delKey (m.connect ws u).subscriptions ws⟩ := by
      simp [ConnectionManager.disconnect, hg1, herase, hks1]
    rw [hd, hsubs2, hac1, delKey_append, delKey_of_not_hasKey hkf]
    simp [delKey]

theorem getVal_connect_active (m : ConnectionManager) (ws : WS) (u : UserId) :
    getVal (m.connect ws u).active_connections u =
      some (insert ws ((getVal m.active_connections u).getD ∅)) := by
  by_cases hk : hasKey m.active_connections u
  · obtain ⟨s, hs⟩ := Option.isSome_iff_exists.mp hk
    have hac1 : (m.connect ws u).active_connections =
        mapVal m.active_connections u (fun x => insert ws x) := by
      simp [ConnectionManager.connect, hk]
    rw [hac1, getVal_mapVal, if_pos rfl, hs]
    rfl
  · have hkf : hasKey m.active_connections u = false := Bool.eq_false_iff.mpr hk
    have hgn : getVal m.active_connections u = none := by
      cases hgc : getVal m.active_connections u with
      | none => rfl
      | some s =>
        rw [hasKey, hgc] at hkf
        simp at hkf
    have hac1 : (m.connect ws u).active_connections =
        m.active_connections ++ [(u, ({ws} : Finset WS))] := by
      simp only [ConnectionManager.connect, hkf, Bool.false_eq_true, if_false]
      rw [mapVal_append, mapVal_of_not_hasKey _ hkf]
      simp [mapVal]
    rw [hac1, getVal_append, hgn]
    simp [getVal]

theorem getVal_connect_subscriptions (m : ConnectionManager) (ws : WS) (u : UserId) :
    getVal (m.connect ws u).subscriptions ws = some (∅ : Finset Ticker) := by
  rw [connect_subscriptions, getVal_setVal, if_pos rfl]

/-- C1.  Fan-out correctness: `broadcast_news` delivers exactly to the
connections whose subscription set contains the ticker or the wildcard "*",
and on the concrete example registry — connection 101 subscribed to
`{AAPL}`, 102 to `{MSFT}`, 103 to `{"*"}` — an AAPL event goes to exactly
connections 101 and 103, never 102. -/
theorem fanout_correctness :
    (∀ (m : ConnectionManager) (t : Ticker) (ws : WS),
      ws ∈ m.broadcast_news t ↔
        ∃ S, (ws, S) ∈ m.subscriptions ∧ (t ∈ S ∨ "*" ∈ S)) ∧
    exampleManager.broadcast_news "AAPL" = [101, 103] := by
  constructor
  · exact mem_broadcast_news
  · decide

/-- C2 counterexample: on the example registry, the session loop receiving a
malformed inbound message (one `receive_json` cannot parse) does NOT keep
the connection: the loop exits and the connection is deregistered — the
websocket 101, registered before the step, has no subscription entry and no
user entry afterwards. -/
theorem malformed_closes_session_cex :
    hasKey exampleManager.subscriptions 101 = true ∧
    session_step (fun _ => false) exampleManager 101 1 Inbound.malformed =
      StepResult.closed (exampleManager.disconnect 101 1) ∧
    hasKey (exampleManager.disconnect 101 1).subscriptions 101 = false ∧
    hasKey (exampleManager.disconnect 101 1).active_connections 1 = false := by
  refine ⟨by decide, rfl, by decide, by decide⟩

/-- C2 amended: a JSON object whose action is unrecognized or missing is
dropped with the session continuing, but a malformed message (a receive the
wire-contract parse raises on) terminates the session: the handler's
`except Exception` clause runs `manager.disconnect` and cancels the
listener task. -/
theorem malformed_terminates_session :
    (∀ (fails : WS → Bool) (m : ConnectionManager) (ws : WS) (u : UserId),
      session_step fails m ws u Inbound.malformed =
        StepResult.closed (m.disconnect ws u)) ∧
    (∀ (fails : WS → Bool) (m : ConnectionManager) (ws : WS) (u : UserId)
      (a : Option String) (ts : List Ticker),
      a ≠ some "subscribe" → a ≠ some "unsubscribe" → a ≠ some "ping" →
      session_step fails m ws u (Inbound.msg a ts) = StepResult.cont m none) := by
  constructor
  · intro fails m ws u
    rfl
  · intro fails m ws u a ts h₁ h₂ h₃
    simp only [session_step]
    rw [if_neg h₁, if_neg h₂, if_neg h₃]

theorem malformed_terminates_session_witness :
    session_step (fun _ => false) exampleManager 101 1 Inbound.malformed =
      StepResult.closed (exampleManager.disconnect 101 1) ∧
    session_step (fun _ => false) exampleManager 101 1
        (Inbound.msg (some "noop") []) = StepResult.cont exampleManager none :=
  ⟨malformed_terminates_session.1 (fun _ => false) exampleManager 101 1,
   malformed_terminates_session.2 (fun _ => false) exampleManager 101 1
     (some "noop") [] (by decide) (by decide) (by decide)⟩

/-- C3: the code starts one `redis_listener` task per opened session rather
than one Update Dispatcher per process.  With two sessions open (websocket
10 of user 1, subscribed to AAPL, and websocket 20 of user 2) there are two
live listener tasks, and a single external AAPL event is pushed to
websocket 10 twice — once per listener — instead of exactly once. -/
theorem per_session_listener_duplicates_event :
    twoSessionProcess.listener_count = 2 ∧
    event_deliveries twoSessionProcess "AAPL" = [10, 10] ∧
    (event_deliveries twoSessionProcess "AAPL").count 10 = 2 := by
  decide

/-- C4 counterexample: calling `connect` with websocket 101, which is
already registered under user 1 with subscription set `{AAPL}`, does not
fail with any error — there is no `DuplicateConnectionError` anywhere in
the code and `connect` has no failure path.  The call completes normally,
returning the registry with 101 still under user 1 and its subscription set
silently reset to empty. -/
theorem duplicate_register_completes_cex :
    hasKey exampleManager.subscriptions 101 = true ∧
    exampleManager.connect 101 1 =
      ⟨[(1, {101}), (2, {102}), (3, {103})],
       [(101, (∅ : Finset Ticker)), (102, {"MSFT"}), (103, {"*"})]⟩ := by
  refine ⟨by decide, by decide⟩

/-- C4 amended: `connect` adds the websocket under the user with an empty
SubscriptionSet; when the same handle is already registered it does not
fail — the handle ends up in the user's connection set and its
SubscriptionSet is (re)set to empty. -/
theorem register_adds_empty_set_never_fails :
    ∀ (m : ConnectionManager) (ws : WS) (u : UserId),
      getVal (m.connect ws u).subscriptions ws = some (∅ : Finset Ticker) ∧
      ∃ T, getVal (m.connect ws u).active_connections u = some T ∧ ws ∈ T := by
  intro m ws u
  refine ⟨getVal_connect_subscriptions m ws u,
    insert ws ((getVal m.active_connections u).getD ∅),
    getVal_connect_active m ws u, Finset.mem_insert_self _ _⟩

/-- C5 counterexample: a send error does not trigger the cleanup path.  On
the example registry with the transport of websocket 101 failing, the
dispatch pass records a failed send to 101, yet the registry afterwards is
exactly the registry before: websocket 101 is still registered — no
deregistration ran. -/
theorem send_error_no_cleanup_cex :
    (broadcast_news_st (fun ws => decide (ws = 101)) exampleManager "AAPL").2 =
      [(101, SendResult.failed), (103, SendResult.ok)] ∧
    (broadcast_news_st (fun ws => decide (ws = 101)) exampleManager "AAPL").1 =
      exampleManager ∧
    hasKey exampleManager.subscriptions 101 = true := by
  refine ⟨by decide, by decide, by decide⟩

/-- C5 amended: a failure to deliver an outbound message is swallowed by
`send_personal_message` (single attempt, no retry): the registry state is
never modified by a send, a failing acknowledgement send leaves the session
loop running, and cleanup (deregistration) runs on the receive path — when
the loop observes the disconnect. -/
theorem send_error_swallowed :
    (∀ (fails : WS → Bool) (m : ConnectionManager) (ws : WS),
      (send_personal_message fails m ws).1 = m) ∧
    (∀ (fails : WS → Bool) (m : ConnectionManager) (t : Ticker),
      (broadcast_news_st fails m t).1 = m) ∧
    (∀ (fails : WS → Bool) (m : ConnectionManager) (ws : WS) (u : UserId)
      (ts : List Ticker), fails ws = true →
      session_step fails m ws u (Inbound.msg (some "subscribe") ts) =
        StepResult.cont (m.subscribe ws ts.toFinset)
          (some (Outbound.subscribed ts.toFinset, SendResult.failed))) ∧
    (∀ (fails : WS → Bool) (m : ConnectionManager) (ws : WS) (u : UserId),
      session_step fails m ws u Inbound.disconnected =
        StepResult.closed (m.disconnect ws u)) := by
  refine ⟨send_personal_message_fst, ?_, ?_, ?_⟩
  · intro fails m t
    rw [broadcast_news_st_spec]
  · intro fails m ws u ts h
    simp only [session_step, if_pos rfl]
    rw [send_personal_message_fst, send_personal_message_snd, h]
    simp
  · intro fails m ws u
    rfl

theorem send_error_swallowed_witness :
    (send_personal_message (fun ws => decide (ws = 101)) exampleManager 101).1 =
      exampleManager ∧
    session_step (fun ws => decide (ws = 101)) exampleManager 101 1
        (Inbound.msg (some "subscribe") ["TSLA"]) =
      StepResult.cont (exampleManager.subscribe 101 (["TSLA"] : List Ticker).toFinset)
        (some (Outbound.subscribed (["TSLA"] : List Ticker).toFinset,
          SendResult.failed)) :=
  ⟨send_error_swallowed.1 (fun ws => decide (ws = 101)) exampleManager 101,
   send_error_swallowed.2.2.1 (fun ws => decide (ws = 101)) exampleManager 101 1
     ["TSLA"] (by decide)⟩

/-- C6: every registry operation preserves the consistency invariant: after
`connect`, `disconnect` (called, as the handler does, by the session that
owns the websocket), `subscribe` and `unsubscribe`, every websocket in the
subscription mapping is in some user's connection set and vice versa.  Both
mappings are updated inside one atomic step function — the embedding of
each operation is a single pure transition, matching the source, where no
`await` separates the two mutations. -/
theorem registry_ops_preserve_invariant :
    (∀ (m : ConnectionManager) (ws : WS) (u : UserId),
      registryInv m → registryInv (m.connect ws u)) ∧
    (∀ (m : ConnectionManager) (ws : WS) (u : UserId),
      registryInv m → ownedBy m ws u → registryInv (m.disconnect ws u)) ∧
    (∀ (m : ConnectionManager) (ws : WS) (ts : Finset Ticker),
      registryInv m → registryInv (m.subscribe ws ts)) ∧
    (∀ (m : ConnectionManager) (ws : WS) (ts : Finset Ticker),
      registryInv m → registryInv (m.unsubscribe ws ts)) :=
  ⟨connect_preserves_registryInv, disconnect_preserves_registryInv,
   subscribe_preserves_registryInv, unsubscribe_preserves_registryInv⟩

theorem registry_ops_preserve_invariant_witness :
    registryInv (exampleManager.connect 104 2) ∧
    registryInv (exampleManager.disconnect 101 1) ∧
    registryInv (exampleManager.subscribe 101 {"TSLA"}) :=
  ⟨registry_ops_preserve_invariant.1 exampleManager 104 2 (by decide),
   registry_ops_preserve_invariant.2.1 exampleManager 101 1 (by decide) (by decide),
   registry_ops_preserve_invariant.2.2.1 exampleManager 101 {"TSLA"} (by decide)⟩

/-- C7: registration/deregistration round trip: on any registry satisfying
the consistency invariant, registering a not-currently-registered websocket
and immediately deregistering it restores the exact previous registry state
— no residual entry for the connection or the user in either mapping. -/
theorem register_deregister_roundtrip :
    ∀ (m : ConnectionManager) (ws : WS) (u : UserId),
      registryInv m → hasKey m.subscriptions ws = false →
      (m.connect ws u).disconnect ws u = m :=
  connect_disconnect_eq

theorem register_deregister_roundtrip_witness :
    (exampleManager.connect 104 2).disconnect 104 2 = exampleManager :=
  register_deregister_roundtrip exampleManager 104 2 (by decide) (by decide)

/-- C8: isolation under partial failure: within one dispatch pass, a send
error on one matching connection is recorded for that connection only;
every other matching connection whose transport works still receives the
event in the same pass (and the pass itself completes — the dispatch is a
total function, no exception escapes to the listener loop). -/
theorem partial_failure_isolated :
    ∀ (fails : WS → Bool) (m : ConnectionManager) (t : Ticker) (c c' : WS),
      c ∈ m.broadcast_news t → fails c = true →
      c' ∈ m.broadcast_news t → fails c' = false →
      (c, SendResult.failed) ∈ (broadcast_news_st fails m t).2 ∧
      (c', SendResult.ok) ∈ (broadcast_news_st fails m t).2 := by
  intro fails m t c c' hc hfc hc' hfc'
  rw [broadcast_news_st_spec]
  constructor
  · exact List.mem_map.mpr ⟨c, hc, by simp [hfc]⟩
  · exact List.mem_map.mpr ⟨c', hc', by simp [hfc']⟩

theorem partial_failure_isolated_witness :
    (101, SendResult.failed) ∈
      (broadcast_news_st (fun ws => decide (ws = 101)) exampleManager "AAPL").2 ∧
    (103, SendResult.ok) ∈
      (broadcast_news_st (fun ws => decide (ws = 101)) exampleManager "AAPL").2 :=
  partial_failure_isolated (fun ws => decide (ws = 101)) exampleManager "AAPL"
    101 103 (by decide) (by decide) (by decide) (by decide)

/-- C9: auth rejection: whenever the decoded credential is missing (the
validator returned `None`) or is not an access-token payload, the handler
closes the transport with code 4001 before the session ever reaches the
Open state, and the registry it returns is exactly the registry it was
given — `manager.connect` never ran, so neither mapping ever contains an
entry for that connection. -/
theorem auth_failure_rejected_no_mutation :
    ∀ (decoded : Option TokenPayload) (m : ConnectionManager) (ws : WS),
      (∀ p, decoded = some p → p.typ ≠ some "access") →
      websocket_news_auth decoded m ws =
        OpenOutcome.rejected 4001 "Invalid token" m := by
  intro decoded m ws h
  cases decoded with
  | none => rfl
  | some p =>
    simp only [websocket_news_auth]
    rw [if_pos (h p rfl)]

theorem auth_failure_rejected_no_mutation_witness :
    websocket_news_auth none exampleManager 104 =
      OpenOutcome.rejected 4001 "Invalid token" exampleManager ∧
    websocket_news_auth (some ⟨some "refresh", 7⟩) exampleManager 104 =
      OpenOutcome.rejected 4001 "Invalid token" exampleManager :=
  ⟨auth_failure_rejected_no_mutation none exampleManager 104
     (fun p hp => Option.noConfusion hp),
   auth_failure_rejected_no_mutation (some ⟨some "refresh", 7⟩) exampleManager 104
     (fun p hp => by cases hp; decide)⟩

/-- C10: calling `connect` with a websocket that is already registered does
not raise — `connect` has no failure path — and it puts the handle in the
user's connection set while resetting the handle's subscription set to
empty, discarding whatever set `S` it had before. -/
theorem duplicate_register_resets_subscriptions :
    ∀ (m : ConnectionManager) (ws : WS) (u : UserId) (S : Finset Ticker),
      getVal m.subscriptions ws = some S →
      getVal (m.connect ws u).subscriptions ws = some (∅ : Finset Ticker) ∧
      ∃ T, getVal (m.connect ws u).active_connections u = some T ∧ ws ∈ T := by
  intro m ws u S _
  exact ⟨getVal_connect_subscriptions m ws u,
    insert ws ((getVal m.active_connections u).getD ∅),
    getVal_connect_active m ws u, Finset.mem_insert_self _ _⟩

theorem duplicate_register_resets_subscriptions_witness :
    getVal (exampleManager.connect 101 1).subscriptions 101 =
      some (∅ : Finset Ticker) ∧
    ∃ T, getVal (exampleManager.connect 101 1).active_connections 1 = some T ∧
      101 ∈ T :=
  duplicate_register_resets_subscriptions exampleManager 101 1 {"AAPL"} (by decide)

end MarketAtlas
